import Mathlib

/-!
# A verification model of the k8s-rdiff utility

This file gives a shallow embedding, in Lean, of the core of the
`k8s-rdiff` Kubernetes resource-diff utility: the snapshot data model and
capture loop (`internal/snapshot`), the diff classification engine
(`internal/diff`), the resource exclusion filter (`internal/filter`), the
interactive presentation state machine (`internal/tui`), and the CLI exit
behaviour (`cmd` main).  Pure Go functions become Lean functions; Go maps
become association lists (with explicit no-duplicate-keys hypotheses where
map semantics matter); fallible Go code returns `Option`/`Except`.

Theorems at the end of the file settle the specified properties of these
components.
-/

set_option linter.unusedVariables false

/-! ## Lexicographic order on strings

Go's `encoding/json` marshals a `map[string]T` with its keys in sorted
(bytewise lexicographic) order.  We model that order computably on the
character lists underlying Lean strings, so that concrete instances can be
evaluated by `decide`/`rfl`. -/

/-- Lexicographic less-or-equal on character lists. -/
def charListLe : List Char → List Char → Bool
  | [], _ => true
  | _ :: _, [] => false
  | a :: as, b :: bs => if a < b then true else if b < a then false else charListLe as bs

/-- Lexicographic order on strings, via their character lists. -/
def strLe (a b : String) : Prop := charListLe a.data b.data = true

instance : DecidableRel strLe := fun _ _ => inferInstanceAs (Decidable (_ = true))

/-- Order on key/value pairs by key only (the order in which `json.Marshal`
emits the entries of a Go map). -/
def keyLe {α : Type} (p q : String × α) : Prop := strLe p.1 q.1

instance {α : Type} : DecidableRel (@keyLe α) :=
  fun p q => inferInstanceAs (Decidable (strLe p.1 q.1))

theorem charListLe_total (a b : List Char) : charListLe a b = true ∨ charListLe b a = true := by
  induction a generalizing b with
  | nil => left; rfl
  | cons x xs ih =>
    cases b with
    | nil => right; rfl
    | cons y ys =>
      simp only [charListLe]
      rcases lt_trichotomy x y with h | h | h
      · left; simp [h]
      · subst h; simp [lt_irrefl]; exact ih ys
      · right; simp [h]

theorem charListLe_trans {a b c : List Char} (h1 : charListLe a b = true)
    (h2 : charListLe b c = true) : charListLe a c = true := by
  induction a generalizing b c with
  | nil => rfl
  | cons x xs ih =>
    cases b with
    | nil => simp [charListLe] at h1
    | cons y ys =>
      cases c with
      | nil => simp [charListLe] at h2
      | cons z zs =>
        simp only [charListLe] at h1 h2 ⊢
        rcases lt_trichotomy x y with hxy | hxy | hxy
        · rcases lt_trichotomy y z with hyz | hyz | hyz
          · simp [lt_trans hxy hyz]
          · subst hyz; simp [hxy]
          · simp [hyz, not_lt_of_gt hyz] at h2
        · subst hxy
          rcases lt_trichotomy x z with hyz | hyz | hyz
          · simp [hyz]
          · subst hyz
            simp [lt_irrefl] at h1 h2 ⊢
            exact ih h1 h2
          · simp [hyz, not_lt_of_gt hyz] at h2
        · simp [hxy, not_lt_of_gt hxy] at h1

theorem charListLe_antisymm {a b : List Char} (h1 : charListLe a b = true)
    (h2 : charListLe b a = true) : a = b := by
  induction a generalizing b with
  | nil =>
    cases b with
    | nil => rfl
    | cons y ys => simp [charListLe] at h2
  | cons x xs ih =>
    cases b with
    | nil => simp [charListLe] at h1
    | cons y ys =>
      simp only [charListLe] at h1 h2
      rcases lt_trichotomy x y with hxy | hxy | hxy
      · simp [hxy, not_lt_of_gt hxy] at h2
      · subst hxy
        simp [lt_irrefl] at h1 h2
        rw [ih h1 h2]
      · simp [hxy, not_lt_of_gt hxy] at h1

theorem strLe_antisymm {a b : String} (h1 : strLe a b) (h2 : strLe b a) : a = b := by
  cases a; cases b
  exact congrArg String.mk (charListLe_antisymm h1 h2)

instance {α : Type} : IsTotal (String × α) keyLe :=
  ⟨fun p q => charListLe_total p.1.data q.1.data⟩

instance {α : Type} : IsTrans (String × α) keyLe :=
  ⟨fun _ _ _ => charListLe_trans⟩

/-- Sort a key/value list by key, as `json.Marshal` does for Go maps. -/
def sortPairs {α : Type} (l : List (String × α)) : List (String × α) :=
  l.insertionSort keyLe

/-- Key-order with distinct keys: the strict version of `keyLe` used to show
that sorting a permuted key-distinct list is canonical. -/
def keyLeNe {α : Type} (p q : String × α) : Prop := keyLe p q ∧ p.1 ≠ q.1

instance {α : Type} : IsAntisymm (String × α) keyLeNe :=
  ⟨fun p q h1 h2 => absurd (strLe_antisymm h1.1 h2.1) h1.2⟩

theorem sortPairs_perm {α : Type} (l : List (String × α)) : (sortPairs l).Perm l :=
  List.perm_insertionSort _ l

theorem sortPairs_sorted {α : Type} (l : List (String × α)) :
    List.Sorted keyLe (sortPairs l) :=
  List.sorted_insertionSort _ l

theorem sortPairs_eq_self {α : Type} {l : List (String × α)} (h : List.Sorted keyLe l) :
    sortPairs l = l :=
  List.Sorted.insertionSort_eq h

/-- Sorting is invariant under permutation of the input, for key-distinct
lists: reordering the raw entries of a map does not change its sorted
serialization order. -/
theorem sortPairs_eq_of_perm {α : Type} {l₁ l₂ : List (String × α)}
    (hp : l₁.Perm l₂) (hn : (l₁.map Prod.fst).Nodup) : sortPairs l₁ = sortPairs l₂ := by
  have hperm : (sortPairs l₁).Perm (sortPairs l₂) :=
    ((sortPairs_perm l₁).trans hp).trans (sortPairs_perm l₂).symm
  have hn₁ : ((sortPairs l₁).map Prod.fst).Nodup :=
    (((sortPairs_perm l₁).map Prod.fst).nodup_iff).mpr hn
  have hn₂ : ((sortPairs l₂).map Prod.fst).Nodup :=
    ((hperm.map Prod.fst).nodup_iff).mp hn₁
  have hne₁ : (sortPairs l₁).Pairwise (fun p q => p.1 ≠ q.1) := List.pairwise_map.mp hn₁
  have hne₂ : (sortPairs l₂).Pairwise (fun p q => p.1 ≠ q.1) := List.pairwise_map.mp hn₂
  have hs₁ : (sortPairs l₁).Pairwise keyLeNe := (sortPairs_sorted l₁).and hne₁
  have hs₂ : (sortPairs l₂).Pairwise keyLeNe := (sortPairs_sorted l₂).and hne₂
  exact List.eq_of_perm_of_sorted hperm hs₁ hs₂

/-! ## JSON values

`Jv` models the JSON data that the program serializes: the `spec` payload of
a resource (a Go map from string to arbitrary JSON data) and the persisted
snapshot document.  Objects are stored as ordered field lists so that the "raw key
ordering of the source payload" is representable; `canon` models the
canonicalization performed by `encoding/json`, which emits map keys in
sorted order at every level. -/

inductive Jv where
  | null : Jv
  | bool (b : Bool) : Jv
  | num (n : Int) : Jv
  | str (s : String) : Jv
  | arr (elems : List Jv) : Jv
  | obj (fields : List (String × Jv)) : Jv

mutual

/-- Canonical form of a JSON value: object fields sorted by key, at every
level.  This is the key ordering `encoding/json` uses for Go maps. -/
def Jv.canon : Jv → Jv
  | .null => .null
  | .bool b => .bool b
  | .num n => .num n
  | .str s => .str s
  | .arr l => .arr (Jv.canonArr l)
  | .obj l => .obj (sortPairs (Jv.canonFields l))

def Jv.canonArr : List Jv → List Jv
  | [] => []
  | x :: xs => Jv.canon x :: Jv.canonArr xs

def Jv.canonFields : List (String × Jv) → List (String × Jv)
  | [] => []
  | p :: ps => (p.1, Jv.canon p.2) :: Jv.canonFields ps

end

mutual

/-- Plain rendering of a JSON value to text (fields in stored order). -/
def Jv.render : Jv → String
  | .null => "null"
  | .bool b => if b then "true" else "false"
  | .num n => toString n
  | .str s => "\"" ++ s ++ "\""
  | .arr l => "[" ++ Jv.renderArr l ++ "]"
  | .obj l => "\x7b" ++ Jv.renderFields l ++ "\x7d"

def Jv.renderArr : List Jv → String
  | [] => ""
  | [x] => Jv.render x
  | x :: xs => Jv.render x ++ "," ++ Jv.renderArr xs

def Jv.renderFields : List (String × Jv) → String
  | [] => ""
  | [p] => "\"" ++ p.1 ++ "\":" ++ Jv.render p.2
  | p :: ps => "\"" ++ p.1 ++ "\":" ++ Jv.render p.2 ++ "," ++ Jv.renderFields ps

end

/-- `jsonMarshal` models Go's `json.Marshal`: the value is rendered with the
keys of every object (Go map) in sorted order. -/
def jsonMarshal (v : Jv) : String := Jv.render v.canon

/-! ## Snapshot data model (`internal/snapshot`) -/

/-- `snapshot.ResourceInfo`: the per-resource record stored in a snapshot.
All fields are strings, as in the source; `Manifest` carries the
`omitempty` JSON tag. -/
structure ResourceInfo where
  GroupVersionKind : String
  Namespace : String
  Name : String
  UID : String
  ResourceVersion : String
  CreationTimestamp : String
  SpecHash : String
  Manifest : String
deriving DecidableEq, Repr

/-- `snapshot.Snapshot`.  The Go `map[string]ResourceInfo` is modelled as an
association list (entry order = iteration order); `time.Time` is modelled by
its serialized instant, a string. -/
structure Snapshot where
  Timestamp : String
  Namespace : String
  Resources : List (String × ResourceInfo)
deriving DecidableEq, Repr

/-- The composite map key built by `CaptureSnapshot` (app.go line 1309):
`gvk|namespace|name`. -/
def keyOf (r : ResourceInfo) : String :=
  r.GroupVersionKind ++ "|" ++ r.Namespace ++ "|" ++ r.Name

/-- A snapshot is well formed when every entry is stored under the key built
from its own record (as `CaptureSnapshot` guarantees) and keys are unique
(as any Go map guarantees). -/
def Snapshot.WellFormed (s : Snapshot) : Prop :=
  (∀ kv ∈ s.Resources, kv.1 = keyOf kv.2) ∧ (s.Resources.map Prod.fst).Nodup

namespace k8s

/-- `k8s.Metadata`. -/
structure Metadata where
  Name : String
  Namespace : String
  UID : String
  ResourceVersion : String
  CreationTimestamp : String
deriving DecidableEq, Repr

/-- `k8s.Resource`: a raw resource returned by the resource lister.  `Spec`
is `none` when the object carried no `spec` payload (a nil Go map). -/
structure Resource where
  ApiVersion : String
  Kind : String
  metadata : Metadata
  Spec : Option Jv

/-- `k8s.CalculateSpecHash` (diff.go lines 582-596): marshals the spec to
JSON and returns a 20-byte prefix of the JSON text (plus `...`) as the
"hash".  `json.Marshal` is modelled by `jsonMarshal` (sorted-key
serialization); marshalling of JSON-representable data never fails, so the
error return of the Go function is not reachable here. -/
def CalculateSpecHash (spec : Jv) : String :=
  let data := jsonMarshal spec
  if data.length > 20 then (data.take 20) ++ "..." else data

end k8s

namespace snapshot

/-- `snapshot.CalculateSpecHash` (app.go lines 1359-1370): marshals the spec
to JSON and digests the bytes.  The MD5 digest itself is an opaque pure
function of the serialized text, so it is taken as a parameter. -/
def CalculateSpecHash (md5hex : String → String) (spec : Jv) : String :=
  md5hex (jsonMarshal spec)

end snapshot

/-! ## Snapshot persistence (`SaveToFile` / `LoadFromFile`)

`SaveToFile` marshals the snapshot with `json.MarshalIndent` and writes the
bytes to a file; `LoadFromFile` reads them back and unmarshals.  The file
round-trips bytes exactly and `encoding/json` parses what it prints, so the
file and text layers are modelled as the identity on the JSON tree: saving
is the struct-to-JSON encoding, loading is the JSON-to-struct decoding. -/

/-- JSON encoding of a `ResourceInfo`, following the struct tags: fields in
declaration order, `manifest` omitted when empty (`omitempty`). -/
def encodeResourceInfo (r : ResourceInfo) : Jv :=
  Jv.obj ([("groupVersionKind", Jv.str r.GroupVersionKind),
           ("namespace", Jv.str r.Namespace),
           ("name", Jv.str r.Name),
           ("uid", Jv.str r.UID),
           ("resourceVersion", Jv.str r.ResourceVersion),
           ("creationTimestamp", Jv.str r.CreationTimestamp),
           ("specHash", Jv.str r.SpecHash)] ++
          (if r.Manifest = "" then [] else [("manifest", Jv.str r.Manifest)]))

/-- Reading a string field as `json.Unmarshal` does: a missing field leaves
the zero value `""`; a field of the wrong JSON type is an unmarshal error. -/
def jvGetStr (l : List (String × Jv)) (name : String) : Option String :=
  match l.lookup name with
  | none => some ""
  | some (Jv.str s) => some s
  | some _ => none

/-- JSON decoding of a `ResourceInfo`. -/
def decodeResourceInfo : Jv → Option ResourceInfo
  | Jv.obj l => do
    let gvk ← jvGetStr l "groupVersionKind"
    let ns ← jvGetStr l "namespace"
    let name ← jvGetStr l "name"
    let uid ← jvGetStr l "uid"
    let rv ← jvGetStr l "resourceVersion"
    let ct ← jvGetStr l "creationTimestamp"
    let sh ← jvGetStr l "specHash"
    let mf ← jvGetStr l "manifest"
    some ⟨gvk, ns, name, uid, rv, ct, sh, mf⟩
  | _ => none

/-- JSON encoding of a `Snapshot`; the resources map is emitted with its
keys in sorted order, as `json.Marshal` does for Go maps. -/
def encodeSnapshot (s : Snapshot) : Jv :=
  Jv.obj [("timestamp", Jv.str s.Timestamp),
          ("namespace", Jv.str s.Namespace),
          ("resources",
            Jv.obj (sortPairs (s.Resources.map (fun p => (p.1, encodeResourceInfo p.2)))))]

/-- Decode the entries of the `resources` object. -/
def decodeResources : List (String × Jv) → Option (List (String × ResourceInfo))
  | [] => some []
  | (k, v) :: rest => do
    let r ← decodeResourceInfo v
    let rs ← decodeResources rest
    some ((k, r) :: rs)

/-- JSON decoding of a `Snapshot`; a missing `resources` field leaves a nil
map. -/
def decodeSnapshot : Jv → Option Snapshot
  | Jv.obj l => do
    let ts ← jvGetStr l "timestamp"
    let ns ← jvGetStr l "namespace"
    let rs ← match l.lookup "resources" with
             | none => some []
             | some (Jv.obj rl) => decodeResources rl
             | some _ => none
    some (Snapshot.mk ts ns rs)
  | _ => none

/-- `Snapshot.SaveToFile` (app.go lines 1318-1342), with the write modelled
as producing the marshalled JSON document. -/
def SaveToFile (s : Snapshot) : Jv := encodeSnapshot s

/-- `snapshot.LoadFromFile` (app.go lines 1345-1357), with the read modelled
as consuming the JSON document. -/
def LoadFromFile (j : Jv) : Option Snapshot := decodeSnapshot j

/-! ## Snapshot capture (`snapshot.CaptureSnapshot`, app.go lines 1234-1315)

Client construction, filter compilation and resource discovery happen before
the per-resource loop and abort the capture wholesale on failure; the loop
below models the per-resource record construction and insertion (lines
1274-1311).  The resource lister's output is flattened into one list.  The
spec-hash function can fail (`json.Marshal` of an arbitrary value can), so
it is a parameter returning `Except`; the YAML manifest serialization is an
opaque total function of the resource, also a parameter. -/

/-- The `gvk|namespace|name` key built for a raw resource (lines 1276 and
1309). -/
def resourceKey (r : k8s.Resource) : String :=
  (r.ApiVersion ++ "/" ++ r.Kind) ++ "|" ++ r.metadata.Namespace ++ "|" ++ r.metadata.Name

/-- Record construction for one resource (lines 1282-1306): `SpecHash` is
initialized to the resource's version token and overwritten by the computed
hash only when the resource has a spec and hashing succeeds. -/
def buildResourceInfo (hashFn : Jv → Except Unit String)
    (manifestOf : k8s.Resource → String) (resource : k8s.Resource) : ResourceInfo :=
  let gvk := resource.ApiVersion ++ "/" ++ resource.Kind
  let base : ResourceInfo :=
    { GroupVersionKind := gvk
      Namespace := resource.metadata.Namespace
      Name := resource.metadata.Name
      UID := resource.metadata.UID
      ResourceVersion := resource.metadata.ResourceVersion
      CreationTimestamp := resource.metadata.CreationTimestamp
      SpecHash := resource.metadata.ResourceVersion
      Manifest := manifestOf resource }
  match resource.Spec with
  | some spec =>
    match hashFn spec with
    | Except.ok h => { base with SpecHash := h }
    | Except.error _ => base
  | none => base

/-- Go map assignment `m[k] = v`: overwrite an existing entry or append. -/
def mapSet (l : List (String × ResourceInfo)) (k : String) (v : ResourceInfo) :
    List (String × ResourceInfo) :=
  if l.any (fun p => p.1 = k) then
    l.map (fun p => if p.1 = k then (k, v) else p)
  else l ++ [(k, v)]

/-- The capture loop over resources (lines 1274-1311). -/
def captureResources (hashFn : Jv → Except Unit String)
    (manifestOf : k8s.Resource → String) :
    List k8s.Resource → List (String × ResourceInfo) → List (String × ResourceInfo)
  | [], acc => acc
  | r :: rs, acc =>
      captureResources hashFn manifestOf rs
        (mapSet acc (resourceKey r) (buildResourceInfo hashFn manifestOf r))

/-- `snapshot.CaptureSnapshot`, from the point where the snapshot struct is
created (line 1253): the timestamp and namespace are recorded and every
listed resource is inserted.  The function is total: no per-resource
condition aborts the capture. -/
def CaptureSnapshot (hashFn : Jv → Except Unit String)
    (manifestOf : k8s.Resource → String) (timestamp ns : String)
    (resources : List k8s.Resource) : Snapshot :=
  { Timestamp := timestamp
    Namespace := ns
    Resources := captureResources hashFn manifestOf resources [] }

/-! ## Diff engine (`internal/diff`, diff.go lines 16-108) -/

/-- `diff.DiffType`. -/
inductive DiffType where
  | Added
  | Removed
  | Modified
deriving DecidableEq, Repr

/-- `diff.ResourceDiff`.  The Go field `Type` is spelled `Type'` because
`Type` is reserved in Lean; the two `*Resource` pointer fields become
options (`none` = nil). -/
structure ResourceDiff where
  Type' : DiffType
  Resource : ResourceInfo
  OldResourceVersion : String
  NewResourceVersion : String
  OldSpecHash : String
  NewSpecHash : String
  BaselineResource : Option ResourceInfo
  CurrentResource : Option ResourceInfo
deriving DecidableEq, Repr

/-- `diff.DiffResult`. -/
structure DiffResult where
  Added : List ResourceDiff
  Removed : List ResourceDiff
  Modified : List ResourceDiff
deriving DecidableEq, Repr

/-- `DiffResult.IsEmpty` (diff.go lines 54-57). -/
def DiffResult.IsEmpty (d : DiffResult) : Bool :=
  d.Added.length = 0 && d.Removed.length = 0 && d.Modified.length = 0

/-- The `Added` entry emitted at diff.go lines 72-76: only `Type`,
`Resource` and `CurrentResource` are set, the rest stay zero valued. -/
def addedEntry (res : ResourceInfo) : ResourceDiff :=
  { Type' := DiffType.Added
    Resource := res
    OldResourceVersion := ""
    NewResourceVersion := ""
    OldSpecHash := ""
    NewSpecHash := ""
    BaselineResource := none
    CurrentResource := some res }

/-- The `Removed` entry emitted at diff.go lines 99-103. -/
def removedEntry (res : ResourceInfo) : ResourceDiff :=
  { Type' := DiffType.Removed
    Resource := res
    OldResourceVersion := ""
    NewResourceVersion := ""
    OldSpecHash := ""
    NewSpecHash := ""
    BaselineResource := some res
    CurrentResource := none }

/-- The `Modified` entry emitted at diff.go lines 81-90, carrying the old
and new version token and the old and new spec hash. -/
def modifiedEntry (baseRes res : ResourceInfo) : ResourceDiff :=
  { Type' := DiffType.Modified
    Resource := res
    OldResourceVersion := baseRes.ResourceVersion
    NewResourceVersion := res.ResourceVersion
    OldSpecHash := baseRes.SpecHash
    NewSpecHash := res.SpecHash
    BaselineResource := some baseRes
    CurrentResource := some res }

/-- The body of the first loop of `Compare` (diff.go lines 68-92): a key
absent from the baseline is Added; a key present in both whose version
token or spec hash differs is Modified; otherwise nothing is emitted. -/
def compareCurrentStep (baseline : Snapshot) (result : DiffResult)
    (kv : String × ResourceInfo) : DiffResult :=
  match baseline.Resources.lookup kv.1 with
  | none => { result with Added := result.Added ++ [addedEntry kv.2] }
  | some baseRes =>
    if kv.2.ResourceVersion ≠ baseRes.ResourceVersion ∨ kv.2.SpecHash ≠ baseRes.SpecHash then
      { result with Modified := result.Modified ++ [modifiedEntry baseRes kv.2] }
    else result

/-- The body of the second loop of `Compare` (diff.go lines 95-105): a
baseline key absent from the current snapshot is Removed. -/
def compareBaselineStep (current : Snapshot) (result : DiffResult)
    (kv : String × ResourceInfo) : DiffResult :=
  if (current.Resources.lookup kv.1).isNone then
    { result with Removed := result.Removed ++ [removedEntry kv.2] }
  else result

/-- `diff.Compare` (diff.go lines 60-108): one pass over the current
snapshot classifying Added/Modified, then one pass over the baseline
classifying Removed.  Go map iteration is the association-list order. -/
def Compare (baseline current : Snapshot) : DiffResult :=
  let result : DiffResult := { Added := [], Removed := [], Modified := [] }
  let afterCurrent := current.Resources.foldl (compareCurrentStep baseline) result
  baseline.Resources.foldl (compareBaselineStep current) afterCurrent

/-! ## Resource filter (`internal/filter`, diff.go lines 208-347)

The regular-expression engine is external (`regexp`); a source pattern is
modelled by what the engine gives the program: whether `regexp.Compile`
accepts it (`valid`) and, when it does, its `MatchString` semantics
(`matchString`).  The alternation `(p1)|(p2)|...` built by `Compile` compiles
exactly when every constituent pattern does and matches a string exactly
when some constituent pattern does. -/

/-- A regular-expression pattern, by its compilation outcome and matching
semantics. -/
structure RegexPattern where
  valid : Bool
  matchString : String → Bool

/-- `filter.ResourceFilter`. -/
structure ResourceFilter where
  IncludePatterns : List RegexPattern
  ExcludePatterns : List RegexPattern
  compiledFilter : Option (String → Bool)

/-- `ResourceFilter.Compile` (diff.go lines 310-327): with no exclude
patterns there is nothing to compile and the compiled filter is nil;
otherwise the exclude alternation is compiled, failing iff some exclude
pattern is invalid.  The include patterns are never examined. -/
def Compile (rf : ResourceFilter) : Except String ResourceFilter :=
  if rf.ExcludePatterns.isEmpty then
    Except.ok { rf with compiledFilter := none }
  else if rf.ExcludePatterns.all (fun p => p.valid) then
    Except.ok
      { rf with compiledFilter := some (fun s => rf.ExcludePatterns.any (fun p => p.matchString s)) }
  else
    Except.error "error parsing regexp"

/-- The include-pattern loop inside `ShouldExclude` (diff.go lines 338-342):
each include pattern is compiled with `regexp.MustCompile`, which panics on
an invalid pattern; a matching include returns `false` before later
patterns are compiled.  `none` models the panic. -/
def includeLoop : List RegexPattern → String → Option Bool
  | [], _ => some true
  | p :: rest, resourceType =>
    if p.valid = false then none
    else if p.matchString resourceType then some false
    else includeLoop rest resourceType

/-- `ResourceFilter.ShouldExclude` (diff.go lines 330-347).  `none` models a
panic escaping the function. -/
def ShouldExclude (rf : ResourceFilter) (resourceType : String) : Option Bool :=
  match rf.compiledFilter with
  | none => some false
  | some compiled =>
    if compiled resourceType then includeLoop rf.IncludePatterns resourceType
    else some false

/-- The Go pattern `^v1/Pod$`: compiles, and (being anchored on both sides)
`MatchString` accepts exactly the string `v1/Pod`. -/
def patV1Pod : RegexPattern :=
  { valid := true, matchString := fun s => s = "v1/Pod" }

/-- A syntactically invalid regular expression, e.g. the Go pattern `(`:
`regexp.Compile` rejects it and `regexp.MustCompile` panics on it. -/
def patInvalid : RegexPattern :=
  { valid := false, matchString := fun _ => false }

/-! ## Presentation state machine (`internal/tui`, app.go lines 21-551)

`Update` is modelled on the messages that drive state transitions: the
force-quit, quit, escape, `c` (capture/continue, both bound to `c`) and `b`
(back) keys, and the two capture-completion messages.  Branches of the Go
switch that only touch rendering state (help toggle, output format,
row filters, scrolling, clipboard, window size, spinner ticks, status
messages) leave the machine state, snapshots and diff untouched and are not
modelled.  The emitted command is the side effect the update schedules. -/

/-- The `state` constants (app.go lines 23-31). -/
inductive TuiState where
  | ready
  | capturingBaseline
  | baselineCaptured
  | capturingCurrent
  | showingDiff
  | showingResourceDetail
  | error
deriving DecidableEq, Repr

/-- The state-machine-relevant fields of `tui.Model`. -/
structure TuiModel where
  state : TuiState
  baseline : Option Snapshot
  current : Option Snapshot
  diffResult : Option DiffResult
  selectedResource : Option ResourceDiff
deriving DecidableEq, Repr

/-- The messages that drive state transitions. -/
inductive TuiMsg where
  | forceQuitKey
  | quitKey
  | escapeKey
  | captureKey
  | backKey
  | baselineCapturedMsg (snap : Option Snapshot) (err : Bool)
  | currentStateCapturedMsg (snap : Option Snapshot) (err : Bool)
deriving DecidableEq, Repr

/-- The commands an update can schedule. -/
inductive TuiCmd where
  | none
  | quit
  | captureBaseline
  | captureCurrent
deriving DecidableEq, Repr

/-- `Model.Update` (app.go lines 231-551), restricted to the
state-transition messages above, following the source case order. -/
def Update (m : TuiModel) : TuiMsg → TuiModel × TuiCmd
  | TuiMsg.forceQuitKey => (m, TuiCmd.quit)
  | TuiMsg.quitKey =>
    if m.state = TuiState.showingResourceDetail then
      ({ m with state := TuiState.showingDiff }, TuiCmd.none)
    else if m.state ≠ TuiState.capturingBaseline ∧ m.state ≠ TuiState.capturingCurrent then
      (m, TuiCmd.quit)
    else
      (m, TuiCmd.none)
  | TuiMsg.escapeKey =>
    if m.state = TuiState.showingResourceDetail then
      ({ m with state := TuiState.showingDiff, selectedResource := none }, TuiCmd.none)
    else
      (m, TuiCmd.none)
  | TuiMsg.captureKey =>
    if m.state = TuiState.ready then
      ({ m with state := TuiState.capturingBaseline }, TuiCmd.captureBaseline)
    else if m.state = TuiState.baselineCaptured then
      ({ m with state := TuiState.capturingCurrent }, TuiCmd.captureCurrent)
    else if m.state = TuiState.showingDiff then
      ({ m with baseline := m.current, current := none, diffResult := none,
                state := TuiState.capturingCurrent }, TuiCmd.captureCurrent)
    else
      (m, TuiCmd.none)
  | TuiMsg.backKey =>
    match m.state with
    | TuiState.baselineCaptured => ({ m with state := TuiState.ready, baseline := none }, TuiCmd.none)
    | TuiState.showingDiff =>
      ({ m with state := TuiState.baselineCaptured, current := none, diffResult := none }, TuiCmd.none)
    | TuiState.showingResourceDetail =>
      ({ m with state := TuiState.showingDiff, selectedResource := none }, TuiCmd.none)
    | _ => (m, TuiCmd.none)
  | TuiMsg.baselineCapturedMsg snap err =>
    let m1 := { m with state := TuiState.baselineCaptured, baseline := snap }
    if err then ({ m1 with state := TuiState.error }, TuiCmd.none) else (m1, TuiCmd.none)
  | TuiMsg.currentStateCapturedMsg snap err =>
    if err then
      ({ m with state := TuiState.error }, TuiCmd.none)
    else
      match m.baseline, snap with
      | some b, some cur =>
        ({ m with current := some cur, state := TuiState.showingDiff,
                  diffResult := some (Compare b cur) }, TuiCmd.none)
      | _, _ => ({ m with current := snap, state := TuiState.showingDiff }, TuiCmd.none)

/-! ## CLI exit behaviour (`cmd` main)

The `start` command runs the interactive program and exits `1` if it
returned an error, otherwise `main` returns normally and the process exits
`0`.  No code path inspects the `DiffResult` to choose an exit code. -/

/-- The process exit code as a function of whether running the interactive
program returned an error — the only datum `main` consults. -/
def mainExitCode (runErr : Bool) : Nat :=
  if runErr then 1 else 0

/-! ## Association-list lemmas for the Go-map model -/

theorem lookup_mem {α : Type} {l : List (String × α)} {k : String} {v : α}
    (h : l.lookup k = some v) : (k, v) ∈ l := by
  induction l with
  | nil => simp at h
  | cons p rest ih =>
    rcases p with ⟨k', v'⟩
    rw [List.lookup_cons] at h
    by_cases hk : k = k'
    · subst hk
      simp at h
      subst h
      exact List.mem_cons_self _ _
    · have hb : (k == k') = false := beq_false_of_ne hk
      rw [hb] at h
      exact List.mem_cons_of_mem _ (ih h)

theorem lookup_eq_none_iff {α : Type} {l : List (String × α)} {k : String} :
    l.lookup k = none ↔ k ∉ l.map Prod.fst := by
  induction l with
  | nil => simp
  | cons p rest ih =>
    rcases p with ⟨k', v'⟩
    rw [List.lookup_cons]
    by_cases hk : k = k'
    · subst hk
      simp
    · have hb : (k == k') = false := beq_false_of_ne hk
      rw [hb]
      simp [hk, ih]

theorem lookup_of_mem_nodup {α : Type} {l : List (String × α)} {k : String} {v : α}
    (hn : (l.map Prod.fst).Nodup) (hm : (k, v) ∈ l) : l.lookup k = some v := by
  induction l with
  | nil => simp at hm
  | cons p rest ih =>
    rcases p with ⟨k', v'⟩
    rw [List.map_cons, List.nodup_cons] at hn
    rcases List.mem_cons.mp hm with h | h
    · rw [Prod.mk.injEq] at h
      rcases h with ⟨hk, hv⟩
      subst hk; subst hv
      rw [List.lookup_cons]
      simp
    · have hk : k ≠ k' := by
        intro hkk
        subst hkk
        exact hn.1 (List.mem_map.mpr ⟨(k, v), h, rfl⟩)
      rw [List.lookup_cons, beq_false_of_ne hk]
      exact ih hn.2 h

theorem lookup_isSome_iff {α : Type} {l : List (String × α)} {k : String} :
    (∃ v, l.lookup k = some v) ↔ k ∈ l.map Prod.fst := by
  constructor
  · rintro ⟨v, hv⟩
    exact List.mem_map.mpr ⟨(k, v), lookup_mem hv, rfl⟩
  · intro hk
    cases h : l.lookup k with
    | none => exact absurd (lookup_eq_none_iff.mp h) (not_not.mpr hk)
    | some v => exact ⟨v, rfl⟩

/-! ## Characterization of `Compare` -/

/-- The current-snapshot entries classified Added: present in `current`,
absent from `baseline`. -/
def addedList (baseline current : Snapshot) : List (String × ResourceInfo) :=
  current.Resources.filter (fun kv => (baseline.Resources.lookup kv.1).isNone)

/-- The baseline entries classified Removed: present in `baseline`, absent
from `current`. -/
def removedList (baseline current : Snapshot) : List (String × ResourceInfo) :=
  baseline.Resources.filter (fun kv => (current.Resources.lookup kv.1).isNone)

/-- The Modified entries produced by the first loop of `Compare` for a
given iteration order of the current snapshot. -/
def modifiedEntries (baseline : Snapshot) :
    List (String × ResourceInfo) → List ResourceDiff
  | [] => []
  | kv :: rest =>
    match baseline.Resources.lookup kv.1 with
    | some baseRes =>
      if kv.2.ResourceVersion ≠ baseRes.ResourceVersion ∨ kv.2.SpecHash ≠ baseRes.SpecHash then
        modifiedEntry baseRes kv.2 :: modifiedEntries baseline rest
      else modifiedEntries baseline rest
    | none => modifiedEntries baseline rest

theorem foldCurrent_spec (b : Snapshot) (l : List (String × ResourceInfo))
    (init : DiffResult) :
    l.foldl (compareCurrentStep b) init =
      { Added := init.Added ++
          (l.filter (fun kv => (b.Resources.lookup kv.1).isNone)).map (fun kv => addedEntry kv.2),
        Removed := init.Removed,
        Modified := init.Modified ++ modifiedEntries b l } := by
  induction l generalizing init with
  | nil => simp [modifiedEntries]
  | cons kv rest ih =>
    rw [List.foldl_cons, ih]
    simp only [compareCurrentStep, modifiedEntries]
    cases h : b.Resources.lookup kv.1 with
    | none =>
      simp [h, List.filter_cons]
    | some baseRes =>
      by_cases hd : kv.2.ResourceVersion ≠ baseRes.ResourceVersion ∨ kv.2.SpecHash ≠ baseRes.SpecHash
      · simp [h, hd, List.filter_cons]
      · simp [h, hd, List.filter_cons]

theorem foldBaseline_spec (c : Snapshot) (l : List (String × ResourceInfo))
    (init : DiffResult) :
    l.foldl (compareBaselineStep c) init =
      { Added := init.Added,
        Removed := init.Removed ++
          (l.filter (fun kv => (c.Resources.lookup kv.1).isNone)).map (fun kv => removedEntry kv.2),
        Modified := init.Modified } := by
  induction l generalizing init with
  | nil => simp
  | cons kv rest ih =>
    rw [List.foldl_cons, ih]
    simp only [compareBaselineStep]
    by_cases h : (c.Resources.lookup kv.1).isNone
    · simp [h, List.filter_cons]
    · simp [h, List.filter_cons]

/-- The full characterization of `Compare`: the three sequences are exactly
the mapped classification lists. -/
theorem compare_eq (b c : Snapshot) :
    Compare b c =
      { Added := (addedList b c).map (fun kv => addedEntry kv.2),
        Removed := (removedList b c).map (fun kv => removedEntry kv.2),
        Modified := modifiedEntries b c.Resources } := by
  show List.foldl (compareBaselineStep c)
      (List.foldl (compareCurrentStep b) { Added := [], Removed := [], Modified := [] } c.Resources)
      b.Resources = _
  rw [foldCurrent_spec, foldBaseline_spec]
  simp [addedList, removedList]

/-- The ResourceKey of an emitted entry, reconstructed from the identity
metadata the entry carries. -/
def entryKey (e : ResourceDiff) : String := keyOf e.Resource

/-- A key present in both snapshots whose version token and spec hash both
agree: classified unchanged, emitted nowhere. -/
def unchangedKey (b c : Snapshot) (k : String) : Prop :=
  ∃ rb rc, b.Resources.lookup k = some rb ∧ c.Resources.lookup k = some rc ∧
    rc.ResourceVersion = rb.ResourceVersion ∧ rc.SpecHash = rb.SpecHash

theorem mem_modifiedEntries {b : Snapshot} {l : List (String × ResourceInfo)}
    {e : ResourceDiff} :
    e ∈ modifiedEntries b l ↔
      ∃ kv, kv ∈ l ∧ ∃ baseRes, b.Resources.lookup kv.1 = some baseRes ∧
        (kv.2.ResourceVersion ≠ baseRes.ResourceVersion ∨ kv.2.SpecHash ≠ baseRes.SpecHash) ∧
        e = modifiedEntry baseRes kv.2 := by
  induction l with
  | nil => simp [modifiedEntries]
  | cons kv rest ih =>
    cases h : b.Resources.lookup kv.1 with
    | none =>
      simp only [modifiedEntries, h]
      rw [ih]
      constructor
      · rintro ⟨kv', hm, hrest⟩
        exact ⟨kv', List.mem_cons_of_mem _ hm, hrest⟩
      · rintro ⟨kv', hm, baseRes, hl, hrest⟩
        rcases List.mem_cons.mp hm with heq | hm'
        · subst heq; rw [h] at hl; cases hl
        · exact ⟨kv', hm', baseRes, hl, hrest⟩
    | some baseRes =>
      simp only [modifiedEntries, h]
      by_cases hd : kv.2.ResourceVersion ≠ baseRes.ResourceVersion ∨ kv.2.SpecHash ≠ baseRes.SpecHash
      · rw [if_pos hd]
        constructor
        · intro hme
          rcases List.mem_cons.mp hme with heq | hm'
          · exact ⟨kv, List.mem_cons_self _ _, baseRes, h, hd, heq⟩
          · rcases ih.mp hm' with ⟨kv', hm'', rest'⟩
            exact ⟨kv', List.mem_cons_of_mem _ hm'', rest'⟩
        · rintro ⟨kv', hm, baseRes', hl, hd', he⟩
          rcases List.mem_cons.mp hm with heq | hm'
          · subst heq
            rw [h] at hl
            cases hl
            rw [he]
            exact List.mem_cons_self _ _
          · exact List.mem_cons_of_mem _ (ih.mpr ⟨kv', hm', baseRes', hl, hd', he⟩)
      · rw [if_neg hd, ih]
        constructor
        · rintro ⟨kv', hm, hrest⟩
          exact ⟨kv', List.mem_cons_of_mem _ hm, hrest⟩
        · rintro ⟨kv', hm, baseRes', hl, hd', he⟩
          rcases List.mem_cons.mp hm with heq | hm'
          · subst heq
            rw [h] at hl
            cases hl
            exact absurd hd' hd
          · exact ⟨kv', hm', baseRes', hl, hd', he⟩

/-- Membership of a key among the Added entries, for a well-formed current
snapshot: exactly the keys in `current` but not in `baseline`. -/
theorem mem_added_keys_iff {b c : Snapshot} (hc : c.WellFormed) {k : String} :
    k ∈ (Compare b c).Added.map entryKey ↔
      b.Resources.lookup k = none ∧ ∃ v, c.Resources.lookup k = some v := by
  rw [compare_eq]
  simp only [List.map_map, List.mem_map, Function.comp]
  constructor
  · rintro ⟨kv, hm, hk⟩
    rw [addedList, List.mem_filter] at hm
    have hkey : kv.1 = keyOf kv.2 := hc.1 kv hm.1
    have hk1 : kv.1 = k := by rw [hkey]; exact hk
    subst hk1
    refine ⟨Option.isNone_iff_eq_none.mp hm.2, kv.2, ?_⟩
    exact lookup_of_mem_nodup hc.2 (by rcases kv with ⟨k1, v1⟩; exact hm.1)
  · rintro ⟨hb, v, hv⟩
    refine ⟨(k, v), ?_, ?_⟩
    · rw [addedList, List.mem_filter]
      exact ⟨lookup_mem hv, by simp [hb]⟩
    · have : (k, v).1 = keyOf (k, v).2 := hc.1 _ (lookup_mem hv)
      simpa [entryKey, addedEntry] using this.symm

/-- Membership of a key among the Removed entries, for a well-formed
baseline snapshot: exactly the keys in `baseline` but not in `current`. -/
theorem mem_removed_keys_iff {b c : Snapshot} (hb : b.WellFormed) {k : String} :
    k ∈ (Compare b c).Removed.map entryKey ↔
      c.Resources.lookup k = none ∧ ∃ v, b.Resources.lookup k = some v := by
  rw [compare_eq]
  simp only [List.map_map, List.mem_map, Function.comp]
  constructor
  · rintro ⟨kv, hm, hk⟩
    rw [removedList, List.mem_filter] at hm
    have hkey : kv.1 = keyOf kv.2 := hb.1 kv hm.1
    have hk1 : kv.1 = k := by rw [hkey]; exact hk
    subst hk1
    refine ⟨Option.isNone_iff_eq_none.mp hm.2, kv.2, ?_⟩
    exact lookup_of_mem_nodup hb.2 (by rcases kv with ⟨k1, v1⟩; exact hm.1)
  · rintro ⟨hcn, v, hv⟩
    refine ⟨(k, v), ?_, ?_⟩
    · rw [removedList, List.mem_filter]
      exact ⟨lookup_mem hv, by simp [hcn]⟩
    · have : (k, v).1 = keyOf (k, v).2 := hb.1 _ (lookup_mem hv)
      simpa [entryKey, removedEntry] using this.symm

/-- Membership of a key among the Modified entries, for a well-formed
current snapshot: exactly the keys in both snapshots with a differing
version token or spec hash. -/
theorem mem_modified_keys_iff {b c : Snapshot} (hc : c.WellFormed) {k : String} :
    k ∈ (Compare b c).Modified.map entryKey ↔
      ∃ rb rc, b.Resources.lookup k = some rb ∧ c.Resources.lookup k = some rc ∧
        (rc.ResourceVersion ≠ rb.ResourceVersion ∨ rc.SpecHash ≠ rb.SpecHash) := by
  rw [compare_eq]
  simp only [List.mem_map]
  constructor
  · rintro ⟨e, he, hk⟩
    rcases mem_modifiedEntries.mp he with ⟨kv, hm, baseRes, hl, hd, hee⟩
    have hkey : kv.1 = keyOf kv.2 := hc.1 kv hm
    have hk1 : kv.1 = k := by
      rw [hkey]
      rw [hee] at hk
      exact hk
    subst hk1
    exact ⟨baseRes, kv.2, hl,
      lookup_of_mem_nodup hc.2 (by rcases kv with ⟨k1, v1⟩; exact hm), hd⟩
  · rintro ⟨rb, rc, hbl, hcl, hd⟩
    refine ⟨modifiedEntry rb rc, ?_, ?_⟩
    · exact mem_modifiedEntries.mpr ⟨(k, rc), lookup_mem hcl, rb, hbl, hd, rfl⟩
    · have : (k, rc).1 = keyOf (k, rc).2 := hc.1 _ (lookup_mem hcl)
      simpa [entryKey, modifiedEntry] using this.symm

/-! ## Concrete sample data (the spec's section-8 scenario) -/

/-- `apps/v1/Deployment myapp/x` at version token `1`, hash `h1`. -/
def rDeploy1 : ResourceInfo :=
  { GroupVersionKind := "apps/v1/Deployment", Namespace := "myapp", Name := "x"
    UID := "u1", ResourceVersion := "1", CreationTimestamp := "t1"
    SpecHash := "h1", Manifest := "m1" }

/-- The same resource at version token `2`, hash unchanged. -/
def rDeploy2 : ResourceInfo := { rDeploy1 with ResourceVersion := "2" }

/-- `v1/ConfigMap myapp/cfg`, present only in the current snapshot. -/
def rCfg : ResourceInfo :=
  { GroupVersionKind := "v1/ConfigMap", Namespace := "myapp", Name := "cfg"
    UID := "u2", ResourceVersion := "5", CreationTimestamp := "t2"
    SpecHash := "hc", Manifest := "" }

/-- `v1/Pod myapp/old-pod`, present only in the baseline. -/
def rPod : ResourceInfo :=
  { GroupVersionKind := "v1/Pod", Namespace := "myapp", Name := "old-pod"
    UID := "u3", ResourceVersion := "9", CreationTimestamp := "t3"
    SpecHash := "hp", Manifest := "m3" }

/-- The baseline snapshot of the scenario. -/
def snapBase : Snapshot :=
  { Timestamp := "2025-04-18T10:02:17Z", Namespace := "myapp"
    Resources := [(keyOf rDeploy1, rDeploy1), (keyOf rPod, rPod)] }

/-- The current snapshot of the scenario. -/
def snapCur : Snapshot :=
  { Timestamp := "2025-04-18T10:05:00Z", Namespace := "myapp"
    Resources := [(keyOf rDeploy2, rDeploy2), (keyOf rCfg, rCfg)] }

/-! ## The claims -/

/-- C3: every entry emitted by `Compare` carries exactly the records its
kind requires: an Added entry a current record and no baseline record, a
Removed entry a baseline record and no current record, a Modified entry
both. -/
theorem C3_entry_record_shape (b c : Snapshot) :
    (∀ e ∈ (Compare b c).Added,
      e.Type' = DiffType.Added ∧ e.BaselineResource = none ∧
        ∃ r, e.CurrentResource = some r) ∧
    (∀ e ∈ (Compare b c).Removed,
      e.Type' = DiffType.Removed ∧ (∃ r, e.BaselineResource = some r) ∧
        e.CurrentResource = none) ∧
    (∀ e ∈ (Compare b c).Modified,
      e.Type' = DiffType.Modified ∧ (∃ r, e.BaselineResource = some r) ∧
        ∃ r, e.CurrentResource = some r) := by
  rw [compare_eq]
  refine ⟨?_, ?_, ?_⟩
  · intro e he
    simp only [List.mem_map] at he
    rcases he with ⟨kv, hm, he⟩
    subst he
    exact ⟨rfl, rfl, kv.2, rfl⟩
  · intro e he
    simp only [List.mem_map] at he
    rcases he with ⟨kv, hm, he⟩
    subst he
    exact ⟨rfl, ⟨kv.2, rfl⟩, rfl⟩
  · intro e he
    simp only at he
    rcases mem_modifiedEntries.mp he with ⟨kv, hm, baseRes, hl, hd, he⟩
    subst he
    exact ⟨rfl, ⟨baseRes, rfl⟩, kv.2, rfl⟩

/-- Witness for C3 at the concrete scenario: its one Added entry, one
Removed entry and one Modified entry have the required record shapes. -/
theorem C3_entry_record_shape_witness :
    (∀ e ∈ (Compare snapBase snapCur).Added,
      e.Type' = DiffType.Added ∧ e.BaselineResource = none ∧
        ∃ r, e.CurrentResource = some r) ∧
    (∀ e ∈ (Compare snapBase snapCur).Modified,
      e.Type' = DiffType.Modified ∧ (∃ r, e.BaselineResource = some r) ∧
        ∃ r, e.CurrentResource = some r) :=
  ⟨(C3_entry_record_shape snapBase snapCur).1,
   (C3_entry_record_shape snapBase snapCur).2.2⟩

/-- C1: a key present in both snapshots is emitted as a Modified entry —
carrying the old and new version token and the old and new spec hash — iff
its version token or its spec hash differs; with both equal it appears in
none of the three emitted sequences. -/
theorem C1_modified_iff_version_or_hash_differs (b c : Snapshot)
    (hb : b.WellFormed) (hc : c.WellFormed) (k : String) (rb rc : ResourceInfo)
    (hkb : b.Resources.lookup k = some rb) (hkc : c.Resources.lookup k = some rc) :
    (modifiedEntry rb rc ∈ (Compare b c).Modified ↔
      (rc.ResourceVersion ≠ rb.ResourceVersion ∨ rc.SpecHash ≠ rb.SpecHash)) ∧
    (rc.ResourceVersion = rb.ResourceVersion ∧ rc.SpecHash = rb.SpecHash →
      k ∉ (Compare b c).Added.map entryKey ∧
      k ∉ (Compare b c).Removed.map entryKey ∧
      k ∉ (Compare b c).Modified.map entryKey) := by
  constructor
  · constructor
    · intro hmem
      rw [compare_eq] at hmem
      simp only at hmem
      rcases mem_modifiedEntries.mp hmem with ⟨kv, hm, baseRes, hl, hd, he⟩
      have h1 : some rb = some baseRes := congrArg ResourceDiff.BaselineResource he
      have h2 : some rc = some kv.2 := congrArg ResourceDiff.CurrentResource he
      cases h1; cases h2
      exact hd
    · intro hd
      rw [compare_eq]
      simp only
      exact mem_modifiedEntries.mpr ⟨(k, rc), lookup_mem hkc, rb, hkb, hd, rfl⟩
  · rintro ⟨hrv, hsh⟩
    refine ⟨?_, ?_, ?_⟩
    · intro hmem
      rcases (mem_added_keys_iff hc).mp hmem with ⟨hnone, _⟩
      rw [hkb] at hnone
      cases hnone
    · intro hmem
      rcases (mem_removed_keys_iff hb).mp hmem with ⟨hnone, _⟩
      rw [hkc] at hnone
      cases hnone
    · intro hmem
      rcases (mem_modified_keys_iff hc).mp hmem with ⟨rb', rc', hkb', hkc', hd⟩
      rw [hkb] at hkb'
      rw [hkc] at hkc'
      cases hkb'
      cases hkc'
      rcases hd with h | h
      · exact h hrv
      · exact h hsh

/-- Witness for C1 at the concrete scenario: the deployment's version token
changed from 1 to 2 (hash unchanged), so its Modified entry is emitted. -/
theorem C1_modified_iff_version_or_hash_differs_witness :
    modifiedEntry rDeploy1 rDeploy2 ∈ (Compare snapBase snapCur).Modified :=
  (C1_modified_iff_version_or_hash_differs snapBase snapCur
    (by simp only [Snapshot.WellFormed]; exact ⟨by decide, by decide⟩)
    (by simp only [Snapshot.WellFormed]; exact ⟨by decide, by decide⟩)
    (keyOf rDeploy1) rDeploy1 rDeploy2
    (by rfl) (by rfl)).1.mpr
    (Or.inl (by simp [rDeploy1, rDeploy2]))

theorem snapBase_wf : snapBase.WellFormed := by
  simp only [Snapshot.WellFormed]
  exact ⟨by decide, by decide⟩

theorem snapCur_wf : snapCur.WellFormed := by
  simp only [Snapshot.WellFormed]
  exact ⟨by decide, by decide⟩

/-- C2: every key of the union of the two key sets falls in exactly one of
the four classes Added, Removed, Modified, unchanged, and the three emitted
sequences are pairwise disjoint by ResourceKey. -/
theorem C2_partition_and_disjoint (b c : Snapshot)
    (hb : b.WellFormed) (hc : c.WellFormed) :
    (∀ k, (k ∈ b.Resources.map Prod.fst ∨ k ∈ c.Resources.map Prod.fst) →
      (k ∈ (Compare b c).Added.map entryKey ∧ k ∉ (Compare b c).Removed.map entryKey ∧
        k ∉ (Compare b c).Modified.map entryKey ∧ ¬ unchangedKey b c k) ∨
      (k ∉ (Compare b c).Added.map entryKey ∧ k ∈ (Compare b c).Removed.map entryKey ∧
        k ∉ (Compare b c).Modified.map entryKey ∧ ¬ unchangedKey b c k) ∨
      (k ∉ (Compare b c).Added.map entryKey ∧ k ∉ (Compare b c).Removed.map entryKey ∧
        k ∈ (Compare b c).Modified.map entryKey ∧ ¬ unchangedKey b c k) ∨
      (k ∉ (Compare b c).Added.map entryKey ∧ k ∉ (Compare b c).Removed.map entryKey ∧
        k ∉ (Compare b c).Modified.map entryKey ∧ unchangedKey b c k)) ∧
    (∀ k, ¬ (k ∈ (Compare b c).Added.map entryKey ∧
             k ∈ (Compare b c).Removed.map entryKey)) ∧
    (∀ k, ¬ (k ∈ (Compare b c).Added.map entryKey ∧
             k ∈ (Compare b c).Modified.map entryKey)) ∧
    (∀ k, ¬ (k ∈ (Compare b c).Removed.map entryKey ∧
             k ∈ (Compare b c).Modified.map entryKey)) := by
  have hA := fun k => mem_added_keys_iff (b := b) hc (k := k)
  have hR := fun k => mem_removed_keys_iff (c := c) hb (k := k)
  have hM := fun k => mem_modified_keys_iff (b := b) hc (k := k)
  refine ⟨?_, ?_, ?_, ?_⟩
  · intro k hk
    cases hbl : b.Resources.lookup k with
    | none =>
      cases hcl : c.Resources.lookup k with
      | none =>
        exfalso
        rcases hk with hk | hk
        · exact absurd (lookup_eq_none_iff.mp hbl) (not_not.mpr hk)
        · exact absurd (lookup_eq_none_iff.mp hcl) (not_not.mpr hk)
      | some rc =>
        left
        refine ⟨(hA k).mpr ⟨hbl, rc, hcl⟩, ?_, ?_, ?_⟩
        · intro hmem
          rcases (hR k).mp hmem with ⟨_, v, hv⟩
          rw [hbl] at hv; cases hv
        · intro hmem
          rcases (hM k).mp hmem with ⟨rb', _, hv, _⟩
          rw [hbl] at hv; cases hv
        · rintro ⟨rb', _, hv, _⟩
          rw [hbl] at hv; cases hv
    | some rb =>
      cases hcl : c.Resources.lookup k with
      | none =>
        right; left
        refine ⟨?_, (hR k).mpr ⟨hcl, rb, hbl⟩, ?_, ?_⟩
        · intro hmem
          rcases (hA k).mp hmem with ⟨_, v, hv⟩
          rw [hcl] at hv; cases hv
        · intro hmem
          rcases (hM k).mp hmem with ⟨_, rc', _, hv, _⟩
          rw [hcl] at hv; cases hv
        · rintro ⟨_, rc', _, hv, _⟩
          rw [hcl] at hv; cases hv
      | some rc =>
        by_cases hd : rc.ResourceVersion ≠ rb.ResourceVersion ∨ rc.SpecHash ≠ rb.SpecHash
        · right; right; left
          refine ⟨?_, ?_, (hM k).mpr ⟨rb, rc, hbl, hcl, hd⟩, ?_⟩
          · intro hmem
            rcases (hA k).mp hmem with ⟨hv, _⟩
            rw [hbl] at hv; cases hv
          · intro hmem
            rcases (hR k).mp hmem with ⟨hv, _⟩
            rw [hcl] at hv; cases hv
          · rintro ⟨rb', rc', hv1, hv2, he1, he2⟩
            rw [hbl] at hv1; rw [hcl] at hv2
            cases hv1; cases hv2
            rcases hd with h | h
            · exact h he1
            · exact h he2
        · push_neg at hd
          right; right; right
          refine ⟨?_, ?_, ?_, rb, rc, hbl, hcl, hd.1, hd.2⟩
          · intro hmem
            rcases (hA k).mp hmem with ⟨hv, _⟩
            rw [hbl] at hv; cases hv
          · intro hmem
            rcases (hR k).mp hmem with ⟨hv, _⟩
            rw [hcl] at hv; cases hv
          · intro hmem
            rcases (hM k).mp hmem with ⟨rb', rc', hv1, hv2, hdd⟩
            rw [hbl] at hv1; rw [hcl] at hv2
            cases hv1; cases hv2
            rcases hdd with h | h
            · exact h hd.1
            · exact h hd.2
  · rintro k ⟨h1, h2⟩
    rcases (hA k).mp h1 with ⟨hv, _⟩
    rcases (hR k).mp h2 with ⟨_, v, hv2⟩
    rw [hv] at hv2; cases hv2
  · rintro k ⟨h1, h2⟩
    rcases (hA k).mp h1 with ⟨hv, _⟩
    rcases (hM k).mp h2 with ⟨rb', _, hv2, _⟩
    rw [hv] at hv2; cases hv2
  · rintro k ⟨h1, h2⟩
    rcases (hR k).mp h1 with ⟨hv, _⟩
    rcases (hM k).mp h2 with ⟨_, rc', _, hv2, _⟩
    rw [hv] at hv2; cases hv2

/-- Witness for C2 at the concrete scenario: the key of the added config
map cannot be in both the Added and the Removed sequences. -/
theorem C2_partition_and_disjoint_witness :
    ¬ (keyOf rCfg ∈ (Compare snapBase snapCur).Added.map entryKey ∧
       keyOf rCfg ∈ (Compare snapBase snapCur).Removed.map entryKey) :=
  (C2_partition_and_disjoint snapBase snapCur snapBase_wf snapCur_wf).2.1 (keyOf rCfg)

/-- The successfully compiled filter (callers check the error and stop on
failure, so uses of the compiled filter see the `ok` value). -/
def compileOrSelf (rf : ResourceFilter) : ResourceFilter :=
  match Compile rf with
  | Except.ok r => r
  | Except.error _ => rf

/-- A filter with exclude pattern `^v1/Pod$` and include pattern
`^v1/Pod$`. -/
def filterPodBoth : ResourceFilter :=
  { IncludePatterns := [patV1Pod], ExcludePatterns := [patV1Pod], compiledFilter := none }

/-- A filter whose include list holds a valid matching pattern before an
invalid one. -/
def filterInvalidInclude : ResourceFilter :=
  { IncludePatterns := [patV1Pod, patInvalid], ExcludePatterns := [patV1Pod],
    compiledFilter := none }

/-- A filter whose include list starts with an invalid pattern. -/
def filterBadFirst : ResourceFilter :=
  { IncludePatterns := [patInvalid], ExcludePatterns := [patV1Pod],
    compiledFilter := none }

theorem includeLoop_all_valid_eq {ps : List RegexPattern} {label : String}
    (hv : ∀ p ∈ ps, p.valid = true) :
    includeLoop ps label = some true ↔ ∀ p ∈ ps, p.matchString label = false := by
  induction ps with
  | nil => simp [includeLoop]
  | cons p rest ih =>
    have hp : p.valid = true := hv p (List.mem_cons_self _ _)
    have hrest : ∀ q ∈ rest, q.valid = true := fun q hq => hv q (List.mem_cons_of_mem _ hq)
    simp only [includeLoop, hp]
    by_cases hm : p.matchString label
    · simp [hm]
    · simp only [Bool.not_eq_true] at hm
      simp [hm, ih hrest]

theorem includeLoop_panics {pre : List RegexPattern} {bad : RegexPattern}
    {rest : List RegexPattern} {label : String} (hbad : bad.valid = false)
    (hpre : ∀ p ∈ pre, p.valid = true ∧ p.matchString label = false) :
    includeLoop (pre ++ bad :: rest) label = none := by
  induction pre with
  | nil => simp [includeLoop, hbad]
  | cons p pre' ih =>
    have hp := hpre p (List.mem_cons_self _ _)
    have hpre' : ∀ q ∈ pre', q.valid = true ∧ q.matchString label = false :=
      fun q hq => hpre q (List.mem_cons_of_mem _ hq)
    simp only [List.cons_append, includeLoop, hp.1, hp.2]
    simpa using ih hpre'

/-- C4: a compiled filter (whose include patterns are well-formed regular
expressions, so that "matches" is defined for them) excludes a label iff
the label matches the exclude alternation and matches no include pattern;
with no exclude patterns nothing is excluded; and with exclude `^v1/Pod$`
and include `^v1/Pod$` the label `v1/Pod` is not excluded. -/
theorem C4_shouldExclude_iff (rf₀ rf : ResourceFilter)
    (hcompile : Compile rf₀ = Except.ok rf)
    (hvalid : ∀ p ∈ rf₀.IncludePatterns, p.valid = true) :
    (∀ label, ShouldExclude rf label = some true ↔
      (rf₀.ExcludePatterns.any (fun p => p.matchString label) = true ∧
       ∀ p ∈ rf₀.IncludePatterns, p.matchString label = false)) ∧
    (rf₀.ExcludePatterns = [] → ∀ label, ShouldExclude rf label = some false) ∧
    ShouldExclude (compileOrSelf filterPodBoth) "v1/Pod" = some false := by
  by_cases he : rf₀.ExcludePatterns.isEmpty
  · have hrf : rf = { rf₀ with compiledFilter := none } := by
      rw [Compile, if_pos he] at hcompile
      exact (Except.ok.injEq _ _).mp hcompile.symm
    have hnil : rf₀.ExcludePatterns = [] := List.isEmpty_iff.mp he
    refine ⟨?_, ?_, rfl⟩
    · intro label
      rw [hrf]
      simp [ShouldExclude, hnil]
    · intro _ label
      rw [hrf]
      simp [ShouldExclude]
  · have hall : rf₀.ExcludePatterns.all (fun p => p.valid) = true := by
      cases hq : rf₀.ExcludePatterns.all (fun p => p.valid) with
      | true => rfl
      | false =>
        rw [Compile, if_neg he, hq] at hcompile
        simp at hcompile
    have hrf :
        rf = { rf₀ with
               compiledFilter := some (fun s => rf₀.ExcludePatterns.any (fun p => p.matchString s)) } := by
      rw [Compile, if_neg he, hall] at hcompile
      simp at hcompile
      exact hcompile.symm
    refine ⟨?_, ?_, rfl⟩
    · intro label
      rw [hrf]
      simp only [ShouldExclude]
      by_cases hm : rf₀.ExcludePatterns.any (fun p => p.matchString label) = true
      · rw [if_pos hm]
        rw [includeLoop_all_valid_eq hvalid]
        simp [hm]
      · rw [if_neg hm]
        simp [hm]
    · intro hnil
      rw [hnil] at he
      simp at he

/-- Witness for C4: at the concrete two-pattern filter, the iff evaluates
on the label `v1/Pod` (excluded by the alternation, rescued by the
include pattern). -/
theorem C4_shouldExclude_iff_witness :
    ShouldExclude (compileOrSelf filterPodBoth) "v1/Pod" = some true ↔
      (filterPodBoth.ExcludePatterns.any (fun p => p.matchString "v1/Pod") = true ∧
       ∀ p ∈ filterPodBoth.IncludePatterns, p.matchString "v1/Pod" = false) :=
  (C4_shouldExclude_iff filterPodBoth (compileOrSelf filterPodBoth) rfl
    (by decide)).1 "v1/Pod"

/-- C10, as stated, is false: this filter's include list contains an
invalid pattern, `Compile` succeeds, the label `v1/Pod` matches the
compiled exclude alternation — yet `ShouldExclude` returns the boolean
`false` rather than panicking, because the valid include pattern listed
before the invalid one matches the label and short-circuits the
`regexp.MustCompile` loop. -/
theorem C10_counterexample :
    (Compile filterInvalidInclude).isOk = true ∧
    (∃ p ∈ filterInvalidInclude.IncludePatterns, p.valid = false) ∧
    filterInvalidInclude.ExcludePatterns.any
      (fun p => p.matchString "v1/Pod") = true ∧
    ShouldExclude (compileOrSelf filterInvalidInclude) "v1/Pod" = some false :=
  ⟨rfl, ⟨patInvalid, List.mem_cons_of_mem _ (List.mem_cons_self _ _), rfl⟩, rfl, rfl⟩

/-- C10 amended: `Compile` validates only the exclude patterns — it
succeeds whatever the include list contains — and `ShouldExclude` on a
label matching the compiled exclude alternation aborts with a panic (via
`regexp.MustCompile`) provided every include pattern listed before the
first invalid one is valid and fails to match the label. -/
theorem C10_compile_skips_includes_and_panic (rf₀ rf : ResourceFilter)
    (hcompile : Compile rf₀ = Except.ok rf) :
    ((∀ p ∈ rf₀.ExcludePatterns, p.valid = true) → ∀ inc : List RegexPattern,
      (Compile { rf₀ with IncludePatterns := inc }).isOk = true) ∧
    (∀ label pre bad rest,
      rf.IncludePatterns = pre ++ bad :: rest →
      bad.valid = false →
      (∀ p ∈ pre, p.valid = true ∧ p.matchString label = false) →
      rf₀.ExcludePatterns.any (fun p => p.matchString label) = true →
      ShouldExclude rf label = none) := by
  constructor
  · intro hexcl inc
    by_cases he : rf₀.ExcludePatterns.isEmpty
    · rw [Compile]
      simp only [he]
      rfl
    · have hall : rf₀.ExcludePatterns.all (fun p => p.valid) = true :=
        List.all_eq_true.mpr fun p hp => hexcl p hp
      rw [Compile]
      simp only [he, hall]
      rfl
  · intro label pre bad rest hinc hbad hpre hany
    have he : ¬ rf₀.ExcludePatterns.isEmpty := by
      intro he
      rw [List.isEmpty_iff.mp he] at hany
      simp at hany
    have hall : rf₀.ExcludePatterns.all (fun p => p.valid) = true := by
      cases hq : rf₀.ExcludePatterns.all (fun p => p.valid) with
      | true => rfl
      | false =>
        rw [Compile, if_neg he, hq] at hcompile
        simp at hcompile
    have hrf :
        rf = { rf₀ with
               compiledFilter := some (fun s => rf₀.ExcludePatterns.any (fun p => p.matchString s)) } := by
      rw [Compile, if_neg he, hall] at hcompile
      simp at hcompile
      exact hcompile.symm
    rw [hrf]
    simp only [ShouldExclude, hany, if_pos]
    have hinc' : rf₀.IncludePatterns = pre ++ bad :: rest := by
      rw [hrf] at hinc
      exact hinc
    rw [hinc']
    exact includeLoop_panics hbad hpre

/-- Witness for the amended C10: `Compile` accepts the filter whose include
list holds an invalid pattern, and `ShouldExclude` panics on `v1/Pod` when
the invalid include pattern comes first. -/
theorem C10_compile_skips_includes_and_panic_witness :
    (Compile { filterBadFirst with
        IncludePatterns := [patV1Pod, patInvalid] }).isOk = true ∧
    ShouldExclude (compileOrSelf filterBadFirst) "v1/Pod" = none := by
  constructor
  · exact (C10_compile_skips_includes_and_panic filterBadFirst
      (compileOrSelf filterBadFirst) rfl).1 (by decide) [patV1Pod, patInvalid]
  · exact (C10_compile_skips_includes_and_panic filterBadFirst
      (compileOrSelf filterBadFirst) rfl).2 "v1/Pod" [] patInvalid [] rfl rfl
      (by intro p hp; cases hp) rfl

/-- A concrete model sitting in the resource-detail view. -/
def mDetail : TuiModel :=
  { state := TuiState.showingResourceDetail, baseline := some snapBase,
    current := some snapCur, diffResult := some (Compare snapBase snapCur),
    selectedResource := some (modifiedEntry rDeploy1 rDeploy2) }

/-- A concrete model in the initial Ready state. -/
def mReady : TuiModel :=
  { state := TuiState.ready, baseline := none, current := none,
    diffResult := none, selectedResource := none }

/-- C9 as stated is false: `ShowingResourceDetail` is a non-capturing state,
yet the quit command does not terminate the loop there — `Update` returns
to the diff view and schedules no quit command. -/
theorem C9_counterexample :
    mDetail.state = TuiState.showingResourceDetail ∧
    (Update mDetail TuiMsg.quitKey).2 = TuiCmd.none ∧
    (Update mDetail TuiMsg.quitKey).2 ≠ TuiCmd.quit ∧
    (Update mDetail TuiMsg.quitKey).1.state = TuiState.showingDiff := by
  refine ⟨rfl, rfl, ?_, rfl⟩
  intro h
  simp only [Update, mDetail] at h
  cases h

/-- C9 amended: the quit command terminates the interactive loop from the
non-capturing states Ready, BaselineCaptured, ShowingDiff and Error; from
ShowingResourceDetail it instead returns to the diff view without
terminating (only the force-quit command terminates from every state). -/
theorem C9_quit_from_noncapturing (m : TuiModel)
    (h : m.state = TuiState.ready ∨ m.state = TuiState.baselineCaptured ∨
         m.state = TuiState.showingDiff ∨ m.state = TuiState.error) :
    Update m TuiMsg.quitKey = (m, TuiCmd.quit) ∧
    (∀ m' : TuiModel, m'.state = TuiState.showingResourceDetail →
      Update m' TuiMsg.quitKey = ({ m' with state := TuiState.showingDiff }, TuiCmd.none)) ∧
    (∀ m' : TuiModel, Update m' TuiMsg.forceQuitKey = (m', TuiCmd.quit)) := by
  refine ⟨?_, ?_, fun m' => rfl⟩
  · have hdet : m.state ≠ TuiState.showingResourceDetail := by
      rcases h with h | h | h | h <;> rw [h] <;> intro hc <;> cases hc
    have hcb : m.state ≠ TuiState.capturingBaseline := by
      rcases h with h | h | h | h <;> rw [h] <;> intro hc <;> cases hc
    have hcc : m.state ≠ TuiState.capturingCurrent := by
      rcases h with h | h | h | h <;> rw [h] <;> intro hc <;> cases hc
    simp only [Update]
    rw [if_neg hdet, if_pos ⟨hcb, hcc⟩]
  · intro m' hm'
    simp only [Update]
    rw [if_pos hm']

/-- Witness for the amended C9: from the concrete Ready model, quit
terminates the loop. -/
theorem C9_quit_from_noncapturing_witness :
    Update mReady TuiMsg.quitKey = (mReady, TuiCmd.quit) :=
  (C9_quit_from_noncapturing mReady (Or.inl rfl)).1

/-- C8: the exit-code mapping the README documents (0 empty diff, 2
non-empty diff, ≥ 3 error) is not implemented: `main` exits 0 on every
successful run — including the concrete run whose DiffResult is non-empty,
which the claim maps to 2 — and exits 1 (not ≥ 3) on error. -/
theorem C8_exit_code_ignores_diff :
    (∀ runErr : Bool, mainExitCode runErr = 0 ∨ mainExitCode runErr = 1) ∧
    (Compare snapBase snapCur).IsEmpty = false ∧
    mainExitCode false = 0 ∧
    mainExitCode true = 1 := by
  refine ⟨?_, ?_, rfl, rfl⟩
  · intro runErr
    cases runErr with
    | false => left; rfl
    | true => right; rfl
  · rfl

theorem lookup_mapSet_self (l : List (String × ResourceInfo)) (k : String)
    (v : ResourceInfo) : (mapSet l k v).lookup k = some v := by
  rw [mapSet]
  by_cases h : l.any (fun p => decide (p.1 = k)) = true
  · rw [if_pos h]
    induction l with
    | nil => simp at h
    | cons p rest ih =>
      rw [List.any_cons] at h
      by_cases hp : p.1 = k
      · simp only [List.map_cons, if_pos hp]
        rw [List.lookup_cons]
        simp
      · have hrest : rest.any (fun p => decide (p.1 = k)) = true := by
          rcases Bool.or_eq_true_iff.mp h with h1 | h1
          · exact absurd (of_decide_eq_true h1) hp
          · exact h1
        simp only [List.map_cons, if_neg hp]
        rw [List.lookup_cons, beq_false_of_ne (fun he => hp he.symm)]
        exact ih hrest
  · rw [if_neg h]
    induction l with
    | nil => rw [List.nil_append, List.lookup_cons]; simp
    | cons p rest ih =>
      rw [List.any_cons] at h
      have hp : ¬ p.1 = k := fun he => h (Bool.or_eq_true_iff.mpr (Or.inl (decide_eq_true he)))
      have hrest : ¬ rest.any (fun p => decide (p.1 = k)) = true :=
        fun he => h (Bool.or_eq_true_iff.mpr (Or.inr he))
      rw [List.cons_append, List.lookup_cons, beq_false_of_ne (fun he => hp he.symm)]
      exact ih hrest

theorem lookup_mapSet_other {l : List (String × ResourceInfo)} {k k' : String}
    {v : ResourceInfo} (hne : k' ≠ k) : (mapSet l k v).lookup k' = l.lookup k' := by
  rw [mapSet]
  by_cases h : l.any (fun p => decide (p.1 = k)) = true
  · rw [if_pos h]
    clear h
    induction l with
    | nil => rfl
    | cons p rest ih =>
      by_cases hp : p.1 = k
      · simp only [List.map_cons, if_pos hp]
        rw [List.lookup_cons, List.lookup_cons, beq_false_of_ne hne,
          beq_false_of_ne (hp ▸ hne)]
        exact ih
      · simp only [List.map_cons, if_neg hp]
        rw [List.lookup_cons, List.lookup_cons]
        cases hb : k' == p.1
        · exact ih
        · rfl
  · rw [if_neg h]
    induction l with
    | nil => rw [List.nil_append, List.lookup_cons, beq_false_of_ne hne]
    | cons p rest ih =>
      rw [List.any_cons] at h
      have hrest : ¬ rest.any (fun p => decide (p.1 = k)) = true :=
        fun he => h (Bool.or_eq_true_iff.mpr (Or.inr he))
      rw [List.cons_append, List.lookup_cons, List.lookup_cons]
      cases hb : k' == p.1
      · exact ih hrest
      · rfl

theorem captureResources_lookup_notmem (hashFn : Jv → Except Unit String)
    (manifestOf : k8s.Resource → String) {rs : List k8s.Resource} {k : String}
    (hk : k ∉ rs.map resourceKey) (acc : List (String × ResourceInfo)) :
    (captureResources hashFn manifestOf rs acc).lookup k = acc.lookup k := by
  induction rs generalizing acc with
  | nil => rfl
  | cons r rs' ih =>
    rw [List.map_cons, List.mem_cons] at hk
    push_neg at hk
    rw [captureResources, ih hk.2, lookup_mapSet_other hk.1]

theorem captureResources_lookup_mem (hashFn : Jv → Except Unit String)
    (manifestOf : k8s.Resource → String) {rs : List k8s.Resource} {r : k8s.Resource}
    (hnodup : (rs.map resourceKey).Nodup) (hmem : r ∈ rs)
    (acc : List (String × ResourceInfo)) :
    (captureResources hashFn manifestOf rs acc).lookup (resourceKey r) =
      some (buildResourceInfo hashFn manifestOf r) := by
  induction rs generalizing acc with
  | nil => cases hmem
  | cons r' rs' ih =>
    rw [List.map_cons, List.nodup_cons] at hnodup
    rcases List.mem_cons.mp hmem with heq | hmem'
    · subst heq
      rw [captureResources, captureResources_lookup_notmem hashFn manifestOf hnodup.1,
        lookup_mapSet_self]
    · rw [captureResources]
      exact ih hnodup.2 hmem' _

/-- C7: when spec hashing fails for an individual resource — or the
resource has no spec payload — the capture still inserts the resource's
record, with the version token standing in for the spec hash; the capture
function is total, so no per-resource condition aborts it. -/
theorem C7_hash_failure_falls_back_to_version (hashFn : Jv → Except Unit String)
    (manifestOf : k8s.Resource → String) (ts nsp : String)
    (resources : List k8s.Resource) (r : k8s.Resource)
    (hmem : r ∈ resources) (hnodup : (resources.map resourceKey).Nodup)
    (hfail : r.Spec = none ∨ ∃ s e, r.Spec = some s ∧ hashFn s = Except.error e) :
    (CaptureSnapshot hashFn manifestOf ts nsp resources).Resources.lookup
        (resourceKey r) = some (buildResourceInfo hashFn manifestOf r) ∧
    (buildResourceInfo hashFn manifestOf r).SpecHash = r.metadata.ResourceVersion ∧
    (CaptureSnapshot hashFn manifestOf ts nsp resources).Timestamp = ts := by
  refine ⟨?_, ?_, rfl⟩
  · exact captureResources_lookup_mem hashFn manifestOf hnodup hmem _
  · rcases hfail with hnone | ⟨s, e, hs, herr⟩
    · rw [buildResourceInfo, hnone]
    · rw [buildResourceInfo, hs]
      simp only [herr]

/-- A resource with no spec payload, for the C7 witness. -/
def resNoSpec : k8s.Resource :=
  { ApiVersion := "v1", Kind := "ConfigMap"
    metadata := { Name := "cfg", Namespace := "myapp", UID := "u9",
                  ResourceVersion := "42", CreationTimestamp := "t9" }
    Spec := none }

/-- A resource whose spec the hash function rejects, for the C7 witness. -/
def resBadSpec : k8s.Resource :=
  { ApiVersion := "v1", Kind := "Secret"
    metadata := { Name := "sec", Namespace := "myapp", UID := "u10",
                  ResourceVersion := "77", CreationTimestamp := "t10" }
    Spec := some (Jv.obj [("k", Jv.str "v")]) }

/-- A hash function that always fails, for the C7 witness. -/
def failingHash : Jv → Except Unit String := fun _ => Except.error ()

/-- A trivial manifest serializer, for the C7 witness. -/
def constManifest : k8s.Resource → String := fun _ => "manifest"

/-- Witness for C7: both the spec-less resource and the resource whose
hash computation fails are captured, with their version tokens as spec
hashes. -/
theorem C7_hash_failure_falls_back_to_version_witness :
    (CaptureSnapshot failingHash constManifest "ts" "myapp"
        [resNoSpec, resBadSpec]).Resources.lookup (resourceKey resBadSpec) =
      some (buildResourceInfo failingHash constManifest resBadSpec) ∧
    (buildResourceInfo failingHash constManifest resBadSpec).SpecHash =
      resBadSpec.metadata.ResourceVersion ∧
    (CaptureSnapshot failingHash constManifest "ts" "myapp"
        [resNoSpec, resBadSpec]).Timestamp = "ts" :=
  C7_hash_failure_falls_back_to_version failingHash constManifest "ts" "myapp"
    [resNoSpec, resBadSpec] resBadSpec
    (List.mem_cons_of_mem _ (List.mem_cons_self _ _))
    (by decide)
    (Or.inr ⟨Jv.obj [("k", Jv.str "v")], (), rfl, rfl⟩)

theorem decodeResourceInfo_encode (r : ResourceInfo) :
    decodeResourceInfo (encodeResourceInfo r) = some r := by
  rcases r with ⟨gvk, ns, name, uid, rv, ct, sh, mf⟩
  by_cases h : mf = ""
  · subst h
    rfl
  · simp only [encodeResourceInfo, if_neg h]
    rfl

theorem decodeResources_encode (l : List (String × ResourceInfo)) :
    decodeResources (l.map (fun p => (p.1, encodeResourceInfo p.2))) = some l := by
  induction l with
  | nil => rfl
  | cons p rest ih =>
    rcases p with ⟨k, r⟩
    simp only [List.map_cons, decodeResources, decodeResourceInfo_encode r, ih,
      Option.bind_eq_bind, Option.some_bind]

theorem decodeSnapshot_obj (ts ns : String) (m : List (String × Jv)) :
    decodeSnapshot (Jv.obj [("timestamp", Jv.str ts), ("namespace", Jv.str ns),
        ("resources", Jv.obj m)]) =
      (decodeResources m).bind (fun rs => some (Snapshot.mk ts ns rs)) := by
  rfl

/-- C5: saving a snapshot and loading it back reproduces the timestamp, the
namespace and every record field under every key.  The hypothesis states
that the association list is the canonical (key-sorted) representation of
the Go map being modelled — a Go map has no entry order of its own. -/
theorem C5_save_load_roundtrip (s : Snapshot)
    (hsorted : List.Sorted keyLe s.Resources) :
    LoadFromFile (SaveToFile s) = some s := by
  rcases s with ⟨ts, ns, rs⟩
  have hsorted' :
      List.Sorted keyLe (rs.map (fun p => (p.1, encodeResourceInfo p.2))) :=
    List.pairwise_map.mpr (hsorted.imp fun h => h)
  rw [SaveToFile, LoadFromFile, encodeSnapshot]
  simp only
  rw [sortPairs_eq_self hsorted', decodeSnapshot_obj, decodeResources_encode]
  rfl

/-- Witness for C5: the concrete baseline snapshot (whose two keys are in
sorted order) round-trips exactly. -/
theorem C5_save_load_roundtrip_witness :
    LoadFromFile (SaveToFile snapBase) = some snapBase :=
  C5_save_load_roundtrip snapBase (by decide)

theorem canonFields_eq_map (l : List (String × Jv)) :
    Jv.canonFields l = l.map (fun p => (p.1, p.2.canon)) := by
  induction l with
  | nil => rfl
  | cons p rest ih => rw [Jv.canonFields, ih, List.map_cons]

/-- C6: spec hashing is deterministic and order-independent.  Two spec
payloads denoting the same Go map value (equal canonical forms) marshal to
the same JSON text, so the prefix-style hash of the `k8s` package and any
digest of the marshalled bytes (the MD5 hash of the `snapshot` package)
agree on them; and reordering the raw fields of an object with distinct
keys — at any nesting level — does not change the canonical form. -/
theorem C6_spec_hash_order_independent :
    (∀ a b : Jv, a.canon = b.canon →
      jsonMarshal a = jsonMarshal b ∧
      k8s.CalculateSpecHash a = k8s.CalculateSpecHash b ∧
      ∀ md5hex : String → String,
        snapshot.CalculateSpecHash md5hex a = snapshot.CalculateSpecHash md5hex b) ∧
    (∀ l₁ l₂ : List (String × Jv), l₁.Perm l₂ → (l₁.map Prod.fst).Nodup →
      (Jv.obj l₁).canon = (Jv.obj l₂).canon) := by
  constructor
  · intro a b h
    have hm : jsonMarshal a = jsonMarshal b := by
      rw [jsonMarshal, jsonMarshal, h]
    refine ⟨hm, ?_, fun md5hex => ?_⟩
    · rw [k8s.CalculateSpecHash, k8s.CalculateSpecHash, hm]
    · rw [snapshot.CalculateSpecHash, snapshot.CalculateSpecHash, hm]
  · intro l₁ l₂ hp hn
    simp only [Jv.canon]
    rw [canonFields_eq_map, canonFields_eq_map]
    have hp' : (l₁.map (fun p => (p.1, p.2.canon))).Perm
        (l₂.map (fun p => (p.1, p.2.canon))) := hp.map _
    have hn' : ((l₁.map (fun p => (p.1, p.2.canon))).map Prod.fst).Nodup := by
      rw [List.map_map]
      exact hn
    rw [sortPairs_eq_of_perm hp' hn']

/-- The raw object fields `b, a` in source order, for the C6 witness. -/
def rawBA : List (String × Jv) := [("b", Jv.num 1), ("a", Jv.num 2)]

/-- The same fields in the order `a, b`, for the C6 witness. -/
def rawAB : List (String × Jv) := [("a", Jv.num 2), ("b", Jv.num 1)]

/-- Witness for C6: the two raw orderings of the same two-field object have
the same canonical form, marshal to the same text and hash identically. -/
theorem C6_spec_hash_order_independent_witness :
    (Jv.obj rawBA).canon = (Jv.obj rawAB).canon ∧
    jsonMarshal (Jv.obj rawBA) = jsonMarshal (Jv.obj rawAB) ∧
    k8s.CalculateSpecHash (Jv.obj rawBA) = k8s.CalculateSpecHash (Jv.obj rawAB) := by
  have hcanon : (Jv.obj rawBA).canon = (Jv.obj rawAB).canon :=
    C6_spec_hash_order_independent.2 rawBA rawAB (List.Perm.swap _ _ _) (by decide)
  have hrest := C6_spec_hash_order_independent.1 (Jv.obj rawBA) (Jv.obj rawAB) hcanon
  exact ⟨hcanon, hrest.1, hrest.2.1⟩
